import Mathlib

/-!
Shallow embedding of the HoloShare upload service (`main.py`): a FastAPI
application that stores uploaded 3D-model files under an `uploads/`
directory and records metadata documents in a MongoDB collection.

Pure data is modelled directly; the filesystem and the document store are
modelled as explicit state threaded through the handlers.  Ambient effects
of the Python code (the current UTC time used by `datetime.now`, and the
ObjectId generated by the database on insert) become explicit parameters
of the handlers.
-/

namespace HoloShare

/-- Bytes of a file body, one natural number per byte. -/
abbrev Bytes := List Nat

/-- Association-map update for the file table: replace the entry with the
given key if present, otherwise add a new entry. -/
def insertFile : List (List String × Bytes) → List String → Bytes → List (List String × Bytes)
  | [], k, c => [(k, c)]
  | (k', c') :: rest, k, c =>
    if k' = k then (k, c) :: rest else (k', c') :: insertFile rest k c

/-- Association-map lookup for the file table. -/
def lookupFile : List (List String × Bytes) → List String → Option Bytes
  | [], _ => none
  | (k', c') :: rest, k => if k' = k then some c' else lookupFile rest k

/-- Split a character list into path components at each slash, dropping
empty components (the behaviour of POSIX path-component splitting).  The
accumulator holds the characters of the current component in reverse. -/
def splitCompsAux : List Char → List Char → List String
  | acc, [] => if acc = [] then [] else [String.mk acc.reverse]
  | acc, c :: cs =>
    if c = '/' then
      if acc = [] then splitCompsAux [] cs
      else String.mk acc.reverse :: splitCompsAux [] cs
    else splitCompsAux (c :: acc) cs

/-- Components of a character list viewed as a POSIX path. -/
def splitComps (cs : List Char) : List String := splitCompsAux [] cs

/-- Components of a path string. -/
def splitPath (s : String) : List String := splitComps s.data

/-- Whether a string starts with a slash (the separator test used by
`posixpath.join` for its second argument). -/
def startsWithSlash (s : String) : Bool :=
  match s.data with
  | [] => false
  | c :: _ => c = '/'

/-- Whether a string ends with a slash. -/
def endsWithSlash (s : String) : Bool :=
  match s.data.getLast? with
  | none => false
  | some c => c = '/'

/-- Model of Python `os.path.join` (POSIX, two arguments): an absolute
second argument replaces the first; otherwise the two parts are joined,
inserting a separator unless one is already present. -/
def os_path_join (a b : String) : String :=
  if startsWithSlash b then b
  else if a = "" ∨ endsWithSlash a then a ++ b
  else a ++ "/" ++ b

/-- Filesystem state: the set of existing directories and the table of
regular files, both keyed by resolved absolute path components. -/
structure FS where
  dirs : List (List String)
  files : List (List String × Bytes)
deriving DecidableEq

/-- Kernel-style resolution of path components against the set of existing
directories, starting from the accumulated directory `acc`: `.` is
skipped, `..` moves to the parent, and any other component must name an
existing directory to be traversed. -/
def resolveDirs (dirs : List (List String)) : List String → List String → Option (List String)
  | acc, [] => some acc
  | acc, c :: rest =>
    if c = "." then resolveDirs dirs acc rest
    else if c = ".." then resolveDirs dirs acc.dropLast rest
    else if (acc ++ [c]) ∈ dirs then resolveDirs dirs (acc ++ [c]) rest
    else none

/-- Model of `open(path, 'wb')` followed by a full write: every component
of the path but the last must resolve to an existing directory, and the
final component (which may not be `.` or `..`, and may not itself be a
directory) is created or truncated with the given content. -/
def fsWrite (fs : FS) (comps : List String) (content : Bytes) : Option FS :=
  match resolveDirs fs.dirs [] comps.dropLast, comps.getLast? with
  | some dir, some last =>
    if last = "." ∨ last = ".." then none
    else if (dir ++ [last]) ∈ fs.dirs then none
    else some ⟨fs.dirs, insertFile fs.files (dir ++ [last]) content⟩
  | _, _ => none

/-- Model of reading the regular file at a path (the existence check of
`os.path.exists` followed by `FileResponse` streaming the bytes). -/
def fsRead (fs : FS) (comps : List String) : Option Bytes :=
  match resolveDirs fs.dirs [] comps.dropLast, comps.getLast? with
  | some dir, some last =>
    if last = "." ∨ last = ".." then none
    else lookupFile fs.files (dir ++ [last])
  | _, _ => none

/-- Calendar timestamp with microsecond precision, the data rendered by
`datetime.now(timezone.utc).strftime("%Y%m%d%H%M%S%f")`. -/
structure Timestamp where
  year : Nat
  month : Nat
  day : Nat
  hour : Nat
  minute : Nat
  second : Nat
  micro : Nat
deriving DecidableEq

/-- Decimal digits of `n`, zero-padded on the left to exactly `w` digits
(the bottom `w` digits of `n`, most significant first). -/
def padDigits : Nat → Nat → List Nat
  | 0, _ => []
  | w + 1, n => padDigits w (n / 10) ++ [n % 10]

/-- Character for a single decimal digit. -/
def digitChar (d : Nat) : Char := Char.ofNat (48 + d)

/-- Digit sequence produced by the format string `"%Y%m%d%H%M%S%f"`:
year to 4 places, month/day/hour/minute/second to 2 places each, and
microseconds to 6 places. -/
def tsDigits (t : Timestamp) : List Nat :=
  padDigits 4 t.year ++ padDigits 2 t.month ++ padDigits 2 t.day ++
    padDigits 2 t.hour ++ padDigits 2 t.minute ++ padDigits 2 t.second ++
    padDigits 6 t.micro

/-- The string `datetime.now(timezone.utc).strftime("%Y%m%d%H%M%S%f")`. -/
def fmtTimestamp (t : Timestamp) : String := String.mk ((tsDigits t).map digitChar)

/-- Field bounds guaranteed for every value produced by Python
`datetime` (its year is between 1 and 9999, and `%f` is microseconds). -/
def validTs (t : Timestamp) : Prop :=
  t.year < 10000 ∧ t.month < 100 ∧ t.day < 100 ∧ t.hour < 100 ∧
    t.minute < 100 ∧ t.second < 100 ∧ t.micro < 1000000

instance (t : Timestamp) : Decidable (validTs t) := by
  unfold validTs; infer_instance

/-- Metadata document for the `asset` collection.  MongoDB documents are
free-form, so every field is optional; `create_document` inserts all of
them, and `doc.get("url")` reads the `url` field. -/
structure AssetDoc where
  filename : Option String
  content_type : Option String
  size_bytes : Option Nat
  url : Option String
  storage_path : Option String
deriving DecidableEq

/-- State of the service: the filesystem and the `asset` collection of
the Metadata Store (documents keyed by their ObjectId hex string). -/
structure ServerState where
  fs : FS
  store : List (String × AssetDoc)
deriving DecidableEq

/-- Modelled from the spec: `insert(collection_name, fields) → id` of the
Metadata Store (`create_document` lives in `database.py`, which is not
part of the sources).  It inserts a new document into the collection and
returns the newly generated unique identifier as an opaque string; the
generated ObjectId is passed in as `newId` since id generation is an
effect of the database driver.  Only the `asset` collection is used, so
the collection is the store itself. -/
def create_document (store : List (String × AssetDoc)) (newId : String)
    (doc : AssetDoc) : String × List (String × AssetDoc) :=
  (newId, (newId, doc) :: store)

/-- Modelled from the spec: `findById(collection_name, id) → fields |
NotFound` of the Metadata Store (`db["asset"].find_one({"_id": oid})`
through the driver configured in `database.py`, which is not part of the
sources): point lookup of the document with the given identifier. -/
def findDoc : List (String × AssetDoc) → String → Option AssetDoc
  | [], _ => none
  | (k, d) :: rest, id => if k = id then some d else findDoc rest id

/-- Validity of a string as a BSON ObjectId (`ObjectId(id)` accepts a
string exactly when it is 24 hexadecimal characters; otherwise it raises,
which `get_asset` converts to a 400 response). -/
def isHexChar (c : Char) : Bool :=
  ('0' ≤ c ∧ c ≤ '9') ∨ ('a' ≤ c ∧ c ≤ 'f') ∨ ('A' ≤ c ∧ c ≤ 'F')

/-- String form of a valid ObjectId: exactly 24 hex characters. -/
def isValidObjectId (s : String) : Bool :=
  s.data.length = 24 ∧ s.data.all isHexChar

/-- ASCII lowercasing of a string, the effect of Python `str.lower()` on
the characters relevant to extension checking. -/
def strToLower (s : String) : String := String.mk (s.data.map Char.toLower)

/-- Suffix test on strings (Python `str.endswith`). -/
def strEndsWith (s suffix : String) : Bool := suffix.data.isSuffixOf s.data

/-- The extension check of `upload_model` (`main.py` line 45-46): the
lowercased filename must end with `.glb`, `.gltf` or `.usdz`. -/
def allowedExt (filename : String) : Bool :=
  strEndsWith (strToLower filename) ".glb" ∨
    strEndsWith (strToLower filename) ".gltf" ∨
    strEndsWith (strToLower filename) ".usdz"

/-- The storage directory `os.path.join(os.getcwd(), "uploads")`
(`main.py` line 24), as a function of the working directory. -/
def STORAGE_DIR (cwd : String) : String := os_path_join cwd "uploads"

/-- The generated storage name `f"{unique}_{file.filename}"`
(`main.py` lines 50-51). -/
def save_name (now : Timestamp) (filename : String) : String :=
  fmtTimestamp now ++ "_" ++ filename

/-- The storage path `os.path.join(STORAGE_DIR, save_name)`
(`main.py` line 52). -/
def save_path (cwd : String) (now : Timestamp) (filename : String) : String :=
  os_path_join (STORAGE_DIR cwd) (save_name now filename)

/-- The public URL `f"/files/{save_name}"` (`main.py` line 59). -/
def public_url (now : Timestamp) (filename : String) : String :=
  "/files/" ++ save_name now filename

/-- The document inserted by `upload_model` (`main.py` lines 62-71). -/
def asset_doc (cwd : String) (now : Timestamp)
    (filename content_type : String) (content : Bytes) : AssetDoc :=
  { filename := some filename, content_type := some content_type,
    size_bytes := some content.length, url := some (public_url now filename),
    storage_path := some (save_path cwd now filename) }

/-- Result of `POST /upload`: 200 with `{id, url}`, 400 on a disallowed
extension, or an unhandled server error (500) if the disk write raises. -/
inductive UploadResult where
  | ok (id url : String)
  | badRequest (detail : String)
  | serverError
deriving DecidableEq

/-- HTTP status of an upload result. -/
def uploadStatus : UploadResult → Nat
  | .ok _ _ => 200
  | .badRequest _ => 400
  | .serverError => 500

/-- Handler of `POST /upload` (`main.py` lines 42-73).  The current UTC
time `now` and the ObjectId `newId` generated by the database are the
ambient effects of the Python code, passed explicitly.  The extension is
validated first; then the content is written to disk; only then is the
metadata document created. -/
def upload_model (cwd : String) (st : ServerState)
    (filename content_type : String) (content : Bytes)
    (now : Timestamp) (newId : String) : ServerState × UploadResult :=
  if allowedExt filename then
    match fsWrite st.fs (splitPath (save_path cwd now filename)) content with
    | none => (st, .serverError)
    | some fs' =>
      let d := create_document st.store newId (asset_doc cwd now filename content_type content)
      (⟨fs', d.2⟩, .ok d.1 (public_url now filename))
  else (st, .badRequest "Only .glb, .gltf, .usdz files are supported")

/-- Result of `GET /files/{filename}`: 200 with the file bytes, or 404. -/
inductive FileResult where
  | ok (content : Bytes)
  | notFound (detail : String)
deriving DecidableEq

/-- HTTP status of a file result. -/
def fileStatus : FileResult → Nat
  | .ok _ => 200
  | .notFound _ => 404

/-- Handler of `GET /files/{filename}` (`main.py` lines 75-81): resolve
the name against the storage directory, 404 if the path does not exist,
otherwise stream the file back unchanged. -/
def serve_file (cwd : String) (st : ServerState) (filename : String) : FileResult :=
  match fsRead st.fs (splitPath (os_path_join (STORAGE_DIR cwd) filename)) with
  | none => .notFound "File not found"
  | some content => .ok content

/-- Result of `GET /asset/{id}`: 200 with `{id, url}` (a missing `url`
field serialising as `null`), 400 on a malformed id, or 404. -/
inductive AssetResult where
  | ok (id : String) (url : Option String)
  | badRequest (detail : String)
  | notFound (detail : String)
deriving DecidableEq

/-- HTTP status of an asset-lookup result. -/
def assetStatus : AssetResult → Nat
  | .ok _ _ => 200
  | .badRequest _ => 400
  | .notFound _ => 404

/-- Handler of `GET /asset/{id}` (`main.py` lines 83-95): parse the id as
an ObjectId (400 on failure), look the document up (404 when absent), and
answer with the input id string verbatim and the document's `url` field. -/
def get_asset (st : ServerState) (id : String) : AssetResult :=
  if isValidObjectId id then
    match findDoc st.store id with
    | none => .notFound "Not found or expired"
    | some doc => .ok id doc.url
  else .badRequest "Invalid id"

/-- Observable state of the `db` handle used by `test_database`: either
`None` (the driver was never initialized), or a connection whose
`list_collection_names()` call either returns the collection names or
raises with some message (server unreachable, auth failure, ...). -/
inductive DbState where
  | noDb
  | conn (listCollectionNames : Except String (List String))

/-- Whether the database is actually reachable and answering queries: a
connection object exists and listing collections succeeds. -/
def dbReachable : DbState → Bool
  | .noDb => false
  | .conn (.ok _) => true
  | .conn (.error _) => false

/-- Response body of `GET /test`, with the fields of the dict built by
`test_database` (`main.py` lines 99-106). -/
structure TestResponse where
  backend : String
  database : String
  database_url : String
  database_name : String
  connection_status : String
  collections : List String
deriving DecidableEq

/-- Handler of `GET /test` (`main.py` lines 97-125): build the diagnostic
dict, trying the database field by field; the inner `try/except` around
`list_collection_names()` is the `Except` match, so no database failure
escapes the handler.  The env-var fields are overwritten unconditionally
at the end (lines 123-124), so only `urlSet`/`nameSet` reach the client. -/
def test_database (db : DbState) (urlSet nameSet : Bool) : TestResponse :=
  { backend := "✅ Running",
    database :=
      match db with
      | .conn (.ok _) => "✅ Connected & Working"
      | .conn (.error e) => "⚠️  Connected but Error: " ++ e.take 50
      | .noDb => "⚠️  Available but not initialized",
    database_url := if urlSet then "✅ Set" else "❌ Not Set",
    database_name := if nameSet then "✅ Set" else "❌ Not Set",
    connection_status := "Not Connected",
    collections :=
      match db with
      | .conn (.ok cols) => cols.take 10
      | .conn (.error _) => []
      | .noDb => [] }

/-- The `/test` endpoint at the HTTP boundary: the handler is a total
function of the database state, so every request gets status 200 with
the diagnostic body (an uncaught exception would instead be a 500). -/
def test_endpoint (db : DbState) (urlSet nameSet : Bool) : Nat × TestResponse :=
  (200, test_database db urlSet nameSet)

/-- Value of a digit list read as a decimal numeral. -/
def digitsVal (l : List Nat) : Nat := l.foldl (fun a d => a * 10 + d) 0

/-- All prefixes of a list, shortest first. -/
def prefixesOf {α : Type} : List α → List (List α)
  | [] => [[]]
  | x :: xs => [] :: (prefixesOf xs).map (x :: ·)

/-! Basic lemmas about the file table. -/

theorem lookupFile_insertFile_self (files : List (List String × Bytes))
    (k : List String) (c : Bytes) :
    lookupFile (insertFile files k c) k = some c := by
  induction files with
  | nil => simp [insertFile, lookupFile]
  | cons hd tl ih =>
    obtain ⟨k', c'⟩ := hd
    by_cases hk : k' = k <;> simp [insertFile, lookupFile, hk, ih]

theorem lookupFile_insertFile_ne (files : List (List String × Bytes))
    (k q : List String) (c : Bytes) (h : q ≠ k) :
    lookupFile (insertFile files k c) q = lookupFile files q := by
  have hkq : ¬ (k = q) := fun e => h e.symm
  induction files with
  | nil => simp [insertFile, lookupFile, hkq]
  | cons hd tl ih =>
    obtain ⟨k', c'⟩ := hd
    by_cases hk : k' = k
    · subst hk
      simp [insertFile, lookupFile, hkq]
    · by_cases hq : k' = q <;> simp [insertFile, lookupFile, hk, hq, ih, h]

theorem mem_insertFile {files : List (List String × Bytes)}
    {k q : List String} {c b : Bytes}
    (h : (q, b) ∈ insertFile files k c) :
    (q, b) ∈ files ∨ (q = k ∧ b = c) := by
  induction files with
  | nil => simpa [insertFile] using h
  | cons hd tl ih =>
    obtain ⟨k', c'⟩ := hd
    by_cases hk : k' = k
    · subst hk
      simp only [insertFile, if_pos rfl] at h
      rcases List.mem_cons.mp h with h1 | h1
      · right; exact ⟨congrArg Prod.fst h1, congrArg Prod.snd h1⟩
      · left; exact List.mem_cons_of_mem _ h1
    · simp only [insertFile, if_neg hk] at h
      rcases List.mem_cons.mp h with h1 | h1
      · left; exact h1 ▸ List.mem_cons_self _ _
      · rcases ih h1 with h2 | h2
        · left; exact List.mem_cons_of_mem _ h2
        · right; exact h2

/-! Read-after-write and frame lemmas for the filesystem model. -/

theorem fsWrite_some {fs fs' : FS} {comps : List String} {content : Bytes}
    (h : fsWrite fs comps content = some fs') :
    ∃ dir last, resolveDirs fs.dirs [] comps.dropLast = some dir ∧
      comps.getLast? = some last ∧ ¬(last = "." ∨ last = "..") ∧
      (dir ++ [last]) ∉ fs.dirs ∧
      fs' = ⟨fs.dirs, insertFile fs.files (dir ++ [last]) content⟩ := by
  unfold fsWrite at h
  rcases hr : resolveDirs fs.dirs [] comps.dropLast with _ | dir <;> rw [hr] at h
  · simp at h
  · rcases hl : comps.getLast? with _ | last <;> rw [hl] at h
    · simp at h
    · by_cases hdot : last = "." ∨ last = ".."
      · simp [hdot] at h
      · by_cases hdir : (dir ++ [last]) ∈ fs.dirs
        · simp [hdot, hdir] at h
        · refine ⟨dir, last, rfl, rfl, hdot, hdir, ?_⟩
          simp [hdot, hdir] at h
          exact h.symm

theorem fsRead_fsWrite_self {fs fs' : FS} {comps : List String} {content : Bytes}
    (h : fsWrite fs comps content = some fs') :
    fs'.dirs = fs.dirs ∧ fsRead fs' comps = some content := by
  obtain ⟨dir, last, hr, hl, hdot, hdir, hfs⟩ := fsWrite_some h
  subst hfs
  refine ⟨rfl, ?_⟩
  unfold fsRead
  rw [hr, hl]
  simp only [hdot, if_false]
  exact lookupFile_insertFile_self _ _ _

/-! String plumbing lemmas. -/

theorem data_append (a b : String) : (a ++ b).data = a.data ++ b.data := by
  cases a
  cases b
  rfl

theorem mk_data (s : String) : String.mk s.data = s := by
  cases s
  rfl

theorem getLast?_append_right {α : Type} (l1 : List α) {l2 : List α} (h : l2 ≠ []) :
    (l1 ++ l2).getLast? = l2.getLast? := by
  induction l1 with
  | nil => rfl
  | cons a t ih =>
    rcases he : t ++ l2 with _ | ⟨y, ys⟩
    · exact absurd (List.append_eq_nil.mp he).2 h
    · rw [List.cons_append, he, List.getLast?_cons_cons, ← he, ih]

theorem dropLast_append_ne {α : Type} (l1 : List α) {l2 : List α} (h : l2 ≠ []) :
    (l1 ++ l2).dropLast = l1 ++ l2.dropLast := by
  induction l1 with
  | nil => rfl
  | cons a t ih =>
    rcases he : t ++ l2 with _ | ⟨y, ys⟩
    · exact absurd (List.append_eq_nil.mp he).2 h
    · rw [List.cons_append, he, List.dropLast_cons₂, ← he, ih]
      rfl

/-! Lemmas about zero-padded decimal rendering: each block has fixed
length, holds only digits, and is injective below its capacity. -/

theorem padDigits_length (w n : Nat) : (padDigits w n).length = w := by
  induction w generalizing n with
  | zero => rfl
  | succ w ih => simp [padDigits, ih]

theorem padDigits_lt (w n : Nat) : ∀ d ∈ padDigits w n, d < 10 := by
  induction w generalizing n with
  | zero => intro d hd; simp [padDigits] at hd
  | succ w ih =>
    intro d hd
    simp only [padDigits, List.mem_append, List.mem_singleton] at hd
    rcases hd with hd | hd
    · exact ih _ _ hd
    · subst hd; exact Nat.mod_lt _ (by norm_num)

theorem padDigits_cons (w n : Nat) (hw : 0 < w) :
    ∃ d t, padDigits w n = d :: t ∧ d < 10 := by
  induction w generalizing n with
  | zero => exact absurd hw (by simp)
  | succ w ih =>
    rcases Nat.eq_zero_or_pos w with hw0 | hw0
    · subst hw0
      exact ⟨n % 10, [], rfl, Nat.mod_lt _ (by norm_num)⟩
    · obtain ⟨d, t, he, hd⟩ := ih (n / 10) hw0
      exact ⟨d, t ++ [n % 10], by simp [padDigits, he], hd⟩

theorem digitsVal_padDigits (w n : Nat) : digitsVal (padDigits w n) = n % 10 ^ w := by
  induction w generalizing n with
  | zero => simp [padDigits, digitsVal, Nat.mod_one]
  | succ w ih =>
    have h1 : digitsVal (padDigits (w + 1) n) = digitsVal (padDigits w (n / 10)) * 10 + n % 10 := by
      simp [padDigits, digitsVal, List.foldl_append]
    rw [h1, ih]
    have h2 : (10 : Nat) ^ (w + 1) = 10 * 10 ^ w := by ring
    rw [h2, Nat.mod_mul]
    ring

theorem padDigits_inj {w n m : Nat} (hn : n < 10 ^ w) (hm : m < 10 ^ w)
    (h : padDigits w n = padDigits w m) : n = m := by
  have hv := congrArg digitsVal h
  rwa [digitsVal_padDigits, digitsVal_padDigits, Nat.mod_eq_of_lt hn,
    Nat.mod_eq_of_lt hm] at hv

theorem digitChar_inj10 : ∀ a, a < 10 → ∀ b, b < 10 → digitChar a = digitChar b → a = b := by
  decide

theorem digitChar_ne : ∀ d, d < 10 → digitChar d ≠ '/' ∧ digitChar d ≠ '.' := by
  decide

theorem map_digitChar_inj : ∀ {l1 l2 : List Nat}, (∀ d ∈ l1, d < 10) →
    (∀ d ∈ l2, d < 10) → l1.map digitChar = l2.map digitChar → l1 = l2 := by
  intro l1
  induction l1 with
  | nil =>
    intro l2 _ _ h
    cases l2 with
    | nil => rfl
    | cons b t2 => simp at h
  | cons a t ih =>
    intro l2 h1 h2 h
    cases l2 with
    | nil => simp at h
    | cons b t2 =>
      simp only [List.map_cons, List.cons.injEq] at h
      have ha : a = b := digitChar_inj10 a (h1 a (List.mem_cons_self a t)) b
        (h2 b (List.mem_cons_self b t2)) h.1
      have ht : t = t2 := ih (fun d hd => h1 d (List.mem_cons_of_mem _ hd))
        (fun d hd => h2 d (List.mem_cons_of_mem _ hd)) h.2
      rw [ha, ht]

/-! Lemmas about the rendered timestamp. -/

theorem tsDigits_lt (t : Timestamp) : ∀ d ∈ tsDigits t, d < 10 := by
  intro d hd
  simp only [tsDigits, List.mem_append] at hd
  rcases hd with ((((((hd | hd) | hd) | hd) | hd) | hd) | hd) <;>
    exact padDigits_lt _ _ _ hd

theorem tsDigits_cons (t : Timestamp) :
    ∃ d rest, tsDigits t = d :: rest ∧ d < 10 := by
  obtain ⟨d, tl, he, hd⟩ := padDigits_cons 4 t.year (by norm_num)
  refine ⟨d, tl ++ padDigits 2 t.month ++ padDigits 2 t.day ++ padDigits 2 t.hour ++
    padDigits 2 t.minute ++ padDigits 2 t.second ++ padDigits 6 t.micro, ?_, hd⟩
  simp [tsDigits, he]

theorem tsDigits_inj {t1 t2 : Timestamp} (h1 : validTs t1) (h2 : validTs t2)
    (h : tsDigits t1 = tsDigits t2) : t1 = t2 := by
  obtain ⟨hy1, hmo1, hd1, hh1, hmi1, hs1, hu1⟩ := h1
  obtain ⟨hy2, hmo2, hd2, hh2, hmi2, hs2, hu2⟩ := h2
  unfold tsDigits at h
  have e6 := List.append_inj' h (by rw [padDigits_length, padDigits_length])
  have e5 := List.append_inj' e6.1 (by rw [padDigits_length, padDigits_length])
  have e4 := List.append_inj' e5.1 (by rw [padDigits_length, padDigits_length])
  have e3 := List.append_inj' e4.1 (by rw [padDigits_length, padDigits_length])
  have e2 := List.append_inj' e3.1 (by rw [padDigits_length, padDigits_length])
  have e1 := List.append_inj' e2.1 (by rw [padDigits_length, padDigits_length])
  have hy : t1.year = t2.year :=
    padDigits_inj (by norm_num at hy1 ⊢; omega) (by norm_num at hy2 ⊢; omega) e1.1
  have hmo : t1.month = t2.month :=
    padDigits_inj (by norm_num at hmo1 ⊢; omega) (by norm_num at hmo2 ⊢; omega) e1.2
  have hd : t1.day = t2.day :=
    padDigits_inj (by norm_num at hd1 ⊢; omega) (by norm_num at hd2 ⊢; omega) e2.2
  have hh : t1.hour = t2.hour :=
    padDigits_inj (by norm_num at hh1 ⊢; omega) (by norm_num at hh2 ⊢; omega) e3.2
  have hmi : t1.minute = t2.minute :=
    padDigits_inj (by norm_num at hmi1 ⊢; omega) (by norm_num at hmi2 ⊢; omega) e4.2
  have hs : t1.second = t2.second :=
    padDigits_inj (by norm_num at hs1 ⊢; omega) (by norm_num at hs2 ⊢; omega) e5.2
  have hu : t1.micro = t2.micro :=
    padDigits_inj (by norm_num at hu1 ⊢; omega) (by norm_num at hu2 ⊢; omega) e6.2
  cases t1
  cases t2
  simp_all

theorem fmtTimestamp_data (t : Timestamp) :
    (fmtTimestamp t).data = (tsDigits t).map digitChar := rfl

theorem fmtTimestamp_inj {t1 t2 : Timestamp} (h1 : validTs t1) (h2 : validTs t2)
    (h : fmtTimestamp t1 = fmtTimestamp t2) : t1 = t2 := by
  have hd := congrArg String.data h
  rw [fmtTimestamp_data, fmtTimestamp_data] at hd
  exact tsDigits_inj h1 h2 (map_digitChar_inj (tsDigits_lt t1) (tsDigits_lt t2) hd)

/-! Lemmas about path-component splitting. -/

theorem splitCompsAux_append_slash (a : List Char) :
    ∀ (acc b : List Char),
      splitCompsAux acc (a ++ '/' :: b) = splitCompsAux acc a ++ splitCompsAux [] b := by
  induction a with
  | nil =>
    intro acc b
    by_cases hacc : acc = [] <;> simp [splitCompsAux, hacc]
  | cons c t ih =>
    intro acc b
    by_cases hc : c = '/'
    · subst hc
      by_cases hacc : acc = [] <;> simp [splitCompsAux, hacc, ih]
    · simp [splitCompsAux, hc, ih]

theorem splitCompsAux_no_slash :
    ∀ (cs acc : List Char), (∀ c ∈ cs, c ≠ '/') → acc ≠ [] →
      splitCompsAux acc cs = [String.mk (acc.reverse ++ cs)] := by
  intro cs
  induction cs with
  | nil =>
    intro acc _ hacc
    simp [splitCompsAux, hacc]
  | cons c t ih =>
    intro acc hno hacc
    have hc : c ≠ '/' := hno c (List.mem_cons_self c t)
    rw [splitCompsAux, if_neg hc,
      ih (c :: acc) (fun x hx => hno x (List.mem_cons_of_mem c hx)) (by simp)]
    simp

theorem splitCompsAux_first :
    ∀ (cs acc : List Char), acc ≠ [] →
      ∃ t rest, splitCompsAux acc cs = String.mk (acc.reverse ++ t) :: rest := by
  intro cs
  induction cs with
  | nil =>
    intro acc hacc
    exact ⟨[], [], by simp [splitCompsAux, hacc]⟩
  | cons c t ih =>
    intro acc hacc
    by_cases hc : c = '/'
    · subst hc
      exact ⟨[], splitCompsAux [] t, by simp [splitCompsAux, hacc]⟩
    · obtain ⟨t', rest, he⟩ := ih (c :: acc) (by simp)
      refine ⟨c :: t', rest, ?_⟩
      rw [splitCompsAux, if_neg hc, he]
      simp

theorem splitComps_cons_of_ne {c : Char} (cs : List Char) (hc : c ≠ '/') :
    ∃ t rest, splitComps (c :: cs) = String.mk (c :: t) :: rest := by
  unfold splitComps
  rw [splitCompsAux, if_neg hc]
  obtain ⟨t, rest, he⟩ := splitCompsAux_first cs [c] (by simp)
  exact ⟨t, rest, by simpa using he⟩

theorem splitComps_no_slash {cs : List Char} (h : ∀ c ∈ cs, c ≠ '/') (hne : cs ≠ []) :
    splitComps cs = [String.mk cs] := by
  cases cs with
  | nil => exact absurd rfl hne
  | cons c t =>
    have hc : c ≠ '/' := h c (List.mem_cons_self c t)
    unfold splitComps
    rw [splitCompsAux, if_neg hc,
      splitCompsAux_no_slash t [c] (fun x hx => h x (List.mem_cons_of_mem c hx)) (by simp)]
    simp

theorem splitPath_append_slash (a b : String) :
    splitPath (a ++ "/" ++ b) = splitPath a ++ splitPath b := by
  unfold splitPath
  have hd : (a ++ "/" ++ b).data = a.data ++ '/' :: b.data := by
    rw [data_append, data_append]
    simp
  rw [hd]
  exact splitCompsAux_append_slash a.data [] b.data

/-! Lemmas about `os_path_join` and the storage directory. -/

theorem os_path_join_eq {a b : String} (hb : startsWithSlash b = false)
    (ha1 : a ≠ "") (ha2 : endsWithSlash a = false) :
    os_path_join a b = a ++ "/" ++ b := by
  unfold os_path_join
  rw [if_neg (by simp [hb]), if_neg (by simp [ha1, ha2])]

theorem endsWithSlash_append_uploads (a : String) :
    endsWithSlash (a ++ "uploads") = false := by
  unfold endsWithSlash
  rw [data_append]
  rw [show ("uploads").data = ['u', 'p', 'l', 'o', 'a', 'd', 's'] from rfl]
  rw [getLast?_append_right a.data (by simp)]
  rfl

theorem append_uploads_ne_empty (a : String) : a ++ "uploads" ≠ "" := by
  intro h
  have hd := congrArg String.data h
  rw [data_append] at hd
  rw [show ("uploads").data = ['u', 'p', 'l', 'o', 'a', 'd', 's'] from rfl] at hd
  rw [show ("" : String).data = [] from rfl] at hd
  exact absurd (List.append_eq_nil.mp hd).2 (by simp)

theorem storage_dir_ne_empty (cwd : String) : STORAGE_DIR cwd ≠ "" := by
  unfold STORAGE_DIR os_path_join
  rw [if_neg (by rw [show startsWithSlash "uploads" = false from rfl]; simp)]
  by_cases hc : cwd = "" ∨ endsWithSlash cwd = true
  · rw [if_pos (by simpa using hc)]
    exact append_uploads_ne_empty cwd
  · rw [if_neg (by simpa using hc)]
    exact fun h => append_uploads_ne_empty (cwd ++ "/") h

theorem storage_dir_no_trailing_slash (cwd : String) :
    endsWithSlash (STORAGE_DIR cwd) = false := by
  unfold STORAGE_DIR os_path_join
  rw [if_neg (by rw [show startsWithSlash "uploads" = false from rfl]; simp)]
  by_cases hc : cwd = "" ∨ endsWithSlash cwd = true
  · rw [if_pos (by simpa using hc)]
    exact endsWithSlash_append_uploads cwd
  · rw [if_neg (by simpa using hc)]
    exact endsWithSlash_append_uploads (cwd ++ "/")

/-! Lemmas about the storage name generated for an upload. -/

theorem save_name_data (now : Timestamp) (f : String) :
    ∃ d rest, (save_name now f).data = digitChar d :: rest ∧ d < 10 := by
  obtain ⟨d, rest, he, hd⟩ := tsDigits_cons now
  refine ⟨d, rest.map digitChar ++ ('_' :: f.data), ?_, hd⟩
  unfold save_name
  rw [data_append, data_append, fmtTimestamp_data, he]
  simp

theorem save_name_no_leading_slash (now : Timestamp) (f : String) :
    startsWithSlash (save_name now f) = false := by
  obtain ⟨d, rest, he, hd⟩ := save_name_data now f
  unfold startsWithSlash
  rw [he]
  simpa using (digitChar_ne d hd).1

theorem save_path_comps (cwd : String) (now : Timestamp) (f : String) :
    splitPath (save_path cwd now f) =
      splitPath (STORAGE_DIR cwd) ++ splitComps (save_name now f).data := by
  unfold save_path
  rw [os_path_join_eq (save_name_no_leading_slash now f) (storage_dir_ne_empty cwd)
    (storage_dir_no_trailing_slash cwd)]
  exact splitPath_append_slash _ _

/-! Prefix sets and directory resolution. -/

theorem mem_prefixesOf {α : Type} (l d : List α) :
    d ∈ prefixesOf l ↔ ∃ t, d ++ t = l := by
  induction l generalizing d with
  | nil =>
    simp only [prefixesOf, List.mem_singleton]
    constructor
    · rintro rfl; exact ⟨[], rfl⟩
    · rintro ⟨t, ht⟩
      exact (List.append_eq_nil.mp ht).1
  | cons x xs ih =>
    simp only [prefixesOf, List.mem_cons, List.mem_map]
    constructor
    · rintro (rfl | ⟨d', hd', rfl⟩)
      · exact ⟨x :: xs, rfl⟩
      · obtain ⟨t, ht⟩ := (ih d').mp hd'
        exact ⟨t, by simp [ht]⟩
    · rintro ⟨t, ht⟩
      cases d with
      | nil => exact Or.inl rfl
      | cons y d' =>
        simp only [List.cons_append, List.cons.injEq] at ht
        exact Or.inr ⟨d', (ih d').mpr ⟨t, ht.2⟩, by rw [ht.1]⟩

theorem resolveDirs_append (dirs : List (List String)) (p : List String) :
    ∀ (q acc : List String),
      resolveDirs dirs acc (p ++ q) =
        (resolveDirs dirs acc p).bind (fun a => resolveDirs dirs a q) := by
  induction p with
  | nil => intro q acc; rfl
  | cons c rest ih =>
    intro q acc
    by_cases hdot : c = "."
    · simp only [List.cons_append, resolveDirs, if_pos hdot]
      exact ih q acc
    · by_cases hdd : c = ".."
      · simp only [List.cons_append, resolveDirs, if_neg hdot, if_pos hdd]
        exact ih q acc.dropLast
      · by_cases hmem : (acc ++ [c]) ∈ dirs
        · simp only [List.cons_append, resolveDirs, if_neg hdot, if_neg hdd, if_pos hmem]
          exact ih q (acc ++ [c])
        · simp only [List.cons_append, resolveDirs, if_neg hdot, if_neg hdd, if_neg hmem,
            Option.bind]

theorem resolve_storage (sc : List String)
    (hcl : ∀ c ∈ sc, c ≠ "." ∧ c ≠ "..") :
    ∀ (rest acc : List String), acc ++ rest = sc →
      resolveDirs (prefixesOf sc) acc rest = some sc := by
  intro rest
  induction rest with
  | nil =>
    intro acc hacc
    rw [resolveDirs]
    rw [← hacc]
    simp
  | cons c rest' ih =>
    intro acc hacc
    have hc : c ∈ sc := by
      rw [← hacc]; exact List.mem_append_right acc (List.mem_cons_self c rest')
    have hmem : (acc ++ [c]) ∈ prefixesOf sc := by
      rw [mem_prefixesOf]
      exact ⟨rest', by simpa using hacc⟩
    rw [resolveDirs, if_neg (hcl c hc).1, if_neg (hcl c hc).2, if_pos hmem]
    exact ih (acc ++ [c]) (by simpa using hacc)

section SymbolicReasoning

attribute [local irreducible] splitCompsAux fmtTimestamp os_path_join

/-- Equation for a successful upload: when the extension is allowed and
the disk write succeeds, the handler writes the file, inserts the
metadata document and answers 200 with the generated id and public url. -/
theorem upload_ok_eq {cwd : String} {st : ServerState}
    {filename ct : String} {content : Bytes} {now : Timestamp}
    {newId : String} {fs' : FS}
    (hall : allowedExt filename = true)
    (hw : fsWrite st.fs (splitPath (save_path cwd now filename)) content = some fs') :
    upload_model cwd st filename ct content now newId =
      (⟨fs', (newId, asset_doc cwd now filename ct content) :: st.store⟩,
        .ok newId (public_url now filename)) := by
  unfold upload_model
  rw [if_pos hall, hw]
  rfl

/-- Equation for an upload whose disk write fails: the exception
propagates (server error) and the state, metadata included, is left
untouched. -/
theorem upload_err_eq {cwd : String} {st : ServerState}
    {filename ct : String} {content : Bytes} {now : Timestamp} {newId : String}
    (hall : allowedExt filename = true)
    (hw : fsWrite st.fs (splitPath (save_path cwd now filename)) content = none) :
    upload_model cwd st filename ct content now newId = (st, .serverError) := by
  unfold upload_model
  rw [if_pos hall, hw]

/-- Equation for an upload with a disallowed extension: 400 and the state
is left untouched. -/
theorem upload_bad_eq {cwd : String} {st : ServerState}
    {filename ct : String} {content : Bytes} {now : Timestamp} {newId : String}
    (hall : ¬ allowedExt filename = true) :
    upload_model cwd st filename ct content now newId =
      (st, .badRequest "Only .glb, .gltf, .usdz files are supported") := by
  unfold upload_model
  rw [if_neg hall]

/-- Characterization of a successful upload: the extension was allowed,
the disk write succeeded, the returned id is the generated ObjectId, the
returned url is the public url, and the new state carries the written
filesystem and the freshly inserted metadata document. -/
theorem upload_ok_parts {cwd : String} {st : ServerState}
    {filename ct : String} {content : Bytes} {now : Timestamp}
    {newId rid url : String}
    (h : (upload_model cwd st filename ct content now newId).2 = .ok rid url) :
    allowedExt filename = true ∧ rid = newId ∧ url = public_url now filename ∧
      ∃ fs', fsWrite st.fs (splitPath (save_path cwd now filename)) content = some fs' ∧
        (upload_model cwd st filename ct content now newId).1 =
          ⟨fs', (newId, asset_doc cwd now filename ct content) :: st.store⟩ := by
  by_cases hall : allowedExt filename = true
  · rcases hw : fsWrite st.fs (splitPath (save_path cwd now filename)) content with _ | fs'
    · rw [upload_err_eq hall hw] at h
      exact absurd h (by simp)
    · rw [upload_ok_eq hall hw] at h
      obtain ⟨h1, h2⟩ : newId = rid ∧ public_url now filename = url := by
        simpa using h
      refine ⟨hall, h1.symm, h2.symm, fs', rfl, ?_⟩
      rw [upload_ok_eq hall hw]
  · rw [upload_bad_eq hall] at h
    exact absurd h (by simp)

/-- A string whose first character is a decimal digit is neither the
path component `.` nor `..`. -/
theorem digit_headed_ne_dots {s : String}
    (h : ∃ d rest, s.data = digitChar d :: rest ∧ d < 10) :
    s ≠ "." ∧ s ≠ ".." := by
  obtain ⟨d, rest, he, hd⟩ := h
  constructor <;> intro hs <;> have hdata := congrArg String.data hs <;>
    rw [he] at hdata
  · rw [show (".").data = ['.'] from rfl] at hdata
    exact (digitChar_ne d hd).2 (List.cons.injEq .. ▸ hdata).1
  · rw [show ("..").data = ['.', '.'] from rfl] at hdata
    exact (digitChar_ne d hd).2 (List.cons.injEq .. ▸ hdata).1

/-- Every character of a generated storage name other than the original
filename's own characters is a digit or an underscore; so if the filename
has no slash, neither has the storage name. -/
theorem save_name_no_slash {f : String} (now : Timestamp)
    (hnos : ∀ c ∈ f.data, c ≠ '/') :
    ∀ c ∈ (save_name now f).data, c ≠ '/' := by
  intro c hc
  unfold save_name at hc
  rw [data_append, data_append, fmtTimestamp_data] at hc
  simp only [List.mem_append, List.mem_map] at hc
  rcases hc with (⟨d, hdmem, rfl⟩ | hc) | hc
  · exact (digitChar_ne d (tsDigits_lt now d hdmem)).1
  · simp only [List.mem_singleton] at hc
    subst hc
    decide
  · exact hnos c hc

/-- The storage name is nonempty (its 20 timestamp digits come first). -/
theorem save_name_data_ne_nil (now : Timestamp) (f : String) :
    (save_name now f).data ≠ [] := by
  obtain ⟨d, rest, he, _⟩ := save_name_data now f
  rw [he]
  simp

/-- Analysis of a successful disk write performed by the upload handler
when the storage tree is exactly the chain of directories leading to the
storage root (`uploads/` is flat: it holds no subdirectories).  The
storage name necessarily split into a single path component, and the file
was created directly inside the storage root. -/
theorem fsWrite_save_path {cwd f : String} {now : Timestamp} {fs : FS}
    {content : Bytes} {fs' : FS} {sc : List String}
    (hsc : splitPath (STORAGE_DIR cwd) = sc)
    (hdirs : fs.dirs = prefixesOf sc)
    (hcl : ∀ c ∈ sc, c ≠ "." ∧ c ≠ "..")
    (hw : fsWrite fs (splitPath (save_path cwd now f)) content = some fs') :
    ∃ nm, splitComps (save_name now f).data = [nm] ∧
      fs' = ⟨fs.dirs, insertFile fs.files (sc ++ [nm]) content⟩ := by
  obtain ⟨d, restc, hed, hd⟩ := save_name_data now f
  have hslash : digitChar d ≠ '/' := (digitChar_ne d hd).1
  obtain ⟨t1, rest2, hsp⟩ : ∃ t1 rest2,
      splitComps (save_name now f).data = String.mk (digitChar d :: t1) :: rest2 := by
    rw [hed]
    exact splitComps_cons_of_ne restc hslash
  have hc1dots : String.mk (digitChar d :: t1) ≠ "." ∧ String.mk (digitChar d :: t1) ≠ ".." :=
    digit_headed_ne_dots ⟨d, t1, rfl, hd⟩
  rw [save_path_comps, hsc, hsp] at hw
  obtain ⟨dir, last, hr, hl, hdot, hnotdir, hfs⟩ := fsWrite_some hw
  cases rest2 with
  | nil =>
    have hdrop : (sc ++ [String.mk (digitChar d :: t1)]).dropLast = sc :=
      List.dropLast_concat ..
    rw [hdrop, hdirs, resolve_storage sc hcl sc [] rfl] at hr
    have hdir : dir = sc := by injection hr with h'; exact h'.symm
    rw [List.getLast?_concat] at hl
    have hlast : last = String.mk (digitChar d :: t1) := by
      injection hl with h'; exact h'.symm
    subst hdir hlast
    exact ⟨String.mk (digitChar d :: t1), hsp, hfs⟩
  | cons c2 rest3 =>
    exfalso
    have hdrop : (sc ++ String.mk (digitChar d :: t1) :: c2 :: rest3).dropLast =
        sc ++ String.mk (digitChar d :: t1) :: (c2 :: rest3).dropLast := by
      rw [dropLast_append_ne sc (by simp)]
      rfl
    rw [hdrop, hdirs, resolveDirs_append, resolve_storage sc hcl sc [] rfl,
      Option.some_bind] at hr
    have hnm : (sc ++ [String.mk (digitChar d :: t1)]) ∉ prefixesOf sc := by
      rw [mem_prefixesOf]
      rintro ⟨t, ht⟩
      have hlen := congrArg List.length ht
      simp only [List.length_append, List.length_cons, List.length_singleton] at hlen
      omega
    rw [resolveDirs, if_neg hc1dots.1, if_neg hc1dots.2, if_neg hnm] at hr
    exact absurd hr (by simp)

/-- Reading a file sitting directly in the storage root when the
directory tree is exactly the chain leading to the root. -/
theorem fsRead_root {fs : FS} {sc : List String}
    (hdirs : fs.dirs = prefixesOf sc)
    (hcl : ∀ x ∈ sc, x ≠ "." ∧ x ≠ "..") {nm : String}
    (hdot : nm ≠ "." ∧ nm ≠ "..") :
    fsRead fs (sc ++ [nm]) = lookupFile fs.files (sc ++ [nm]) := by
  have hcond : ¬ (nm = "." ∨ nm = "..") := by
    rintro (h | h)
    · exact hdot.1 h
    · exact hdot.2 h
  unfold fsRead
  rw [List.dropLast_concat, List.getLast?_concat, hdirs, resolve_storage sc hcl sc [] rfl]
  exact if_neg hcond

/-- The handler of `GET /files/{name}` applied to a generated storage
name looks at exactly the path the upload handler wrote to. -/
theorem serve_save_name (cwd : String) (st : ServerState) (now : Timestamp) (f : String) :
    serve_file cwd st (save_name now f) =
      match fsRead st.fs (splitPath (save_path cwd now f)) with
      | none => .notFound "File not found"
      | some content => .ok content := rfl

/-- The storage name splits into itself as a single path component when
the original filename has no slash. -/
theorem splitComps_save_name {f : String} (now : Timestamp)
    (hnos : ∀ c ∈ f.data, c ≠ '/') :
    splitComps (save_name now f).data = [save_name now f] :=
  splitComps_no_slash (save_name_no_slash now hnos) (save_name_data_ne_nil now f)

/-- The two path components generated for distinct timestamps differ. -/
theorem save_name_inj {ts1 ts2 : Timestamp} (f : String)
    (hv1 : validTs ts1) (hv2 : validTs ts2) (hne : ts1 ≠ ts2) :
    save_name ts1 f ≠ save_name ts2 f := by
  intro he
  apply hne
  apply fmtTimestamp_inj hv1 hv2
  have hd := congrArg String.data he
  have hshape : ∀ ts : Timestamp,
      (save_name ts f).data = (fmtTimestamp ts).data ++ ['_'] ++ f.data := by
    intro ts
    unfold save_name
    rw [data_append, data_append]
  rw [hshape ts1, hshape ts2] at hd
  have h1 := List.append_inj' hd rfl
  have h2 := List.append_inj' h1.1 rfl
  rw [← mk_data (fmtTimestamp ts1), ← mk_data (fmtTimestamp ts2), h2.1]

/-- C1: for every successful upload, the id returned by `POST /upload`
later resolves via `GET /asset/{id}` to a 200 response whose `url` field
equals the `url` field of the upload response exactly.  (The generated
ObjectId is a 24-hex-character string, which is the `hid` hypothesis.) -/
theorem upload_id_resolves_to_same_url (cwd : String) (st : ServerState)
    (filename ct : String) (content : Bytes) (now : Timestamp)
    (newId rid url : String)
    (hid : isValidObjectId newId = true)
    (h : (upload_model cwd st filename ct content now newId).2 = .ok rid url) :
    get_asset (upload_model cwd st filename ct content now newId).1 rid =
      .ok rid (some url) ∧
    assetStatus (get_asset (upload_model cwd st filename ct content now newId).1 rid) = 200 := by
  obtain ⟨hall, hrid, hurl, fs', hw, hst⟩ := upload_ok_parts h
  rw [hst]
  unfold get_asset
  rw [hrid, if_pos hid]
  have hfind : findDoc ((newId, asset_doc cwd now filename ct content) :: st.store) newId =
      some (asset_doc cwd now filename ct content) := by
    unfold findDoc
    rw [if_pos rfl]
  rw [hfind, hurl]
  exact ⟨rfl, rfl⟩

/-- C2: for every successful upload of content bytes `B`, fetching the
url returned by `/upload` via `GET /files/{name}` returns exactly `B`,
byte for byte, with no transformation applied by the service. -/
theorem upload_bytes_round_trip (cwd : String) (st : ServerState)
    (filename ct : String) (content : Bytes) (now : Timestamp)
    (newId rid url : String)
    (h : (upload_model cwd st filename ct content now newId).2 = .ok rid url) :
    url = "/files/" ++ save_name now filename ∧
    serve_file cwd (upload_model cwd st filename ct content now newId).1
        (save_name now filename) = .ok content ∧
    fileStatus (serve_file cwd (upload_model cwd st filename ct content now newId).1
        (save_name now filename)) = 200 := by
  obtain ⟨hall, hrid, hurl, fs', hw, hst⟩ := upload_ok_parts h
  subst hurl
  have hread : fsRead fs' (splitPath (save_path cwd now filename)) = some content :=
    (fsRead_fsWrite_self hw).2
  refine ⟨rfl, ?_, ?_⟩ <;> rw [hst, serve_save_name]
  · rw [show (ServerState.mk fs' ((newId, asset_doc cwd now filename ct content) :: st.store)).fs
        = fs' from rfl, hread]
  · rw [show (ServerState.mk fs' ((newId, asset_doc cwd now filename ct content) :: st.store)).fs
        = fs' from rfl, hread]
    rfl

/-- C3: for every upload whose filename's extension, compared
case-insensitively, is not `.glb`, `.gltf` or `.usdz`, `POST /upload`
returns status 400 and creates neither a file in the storage directory
nor a metadata record (the state is returned unchanged). -/
theorem upload_rejects_bad_extension (cwd : String) (st : ServerState)
    (filename ct : String) (content : Bytes) (now : Timestamp) (newId : String)
    (hext : allowedExt filename = false) :
    upload_model cwd st filename ct content now newId =
      (st, .badRequest "Only .glb, .gltf, .usdz files are supported") ∧
    uploadStatus (upload_model cwd st filename ct content now newId).2 = 400 := by
  have hall : ¬ allowedExt filename = true := by simp [hext]
  rw [upload_bad_eq hall]
  exact ⟨rfl, rfl⟩

/-- C4: during `POST /upload`, the metadata record is created only after
the file write has fully succeeded: if the disk write fails, the handler
raises (a server error) and no metadata record exists — the state,
metadata store included, is exactly the state before the request. -/
theorem upload_no_record_on_write_failure (cwd : String) (st : ServerState)
    (filename ct : String) (content : Bytes) (now : Timestamp) (newId : String)
    (hall : allowedExt filename = true)
    (hw : fsWrite st.fs (splitPath (save_path cwd now filename)) content = none) :
    upload_model cwd st filename ct content now newId = (st, .serverError) ∧
    (upload_model cwd st filename ct content now newId).1.store = st.store ∧
    uploadStatus (upload_model cwd st filename ct content now newId).2 = 500 := by
  rw [upload_err_eq hall hw]
  exact ⟨rfl, rfl, rfl⟩

/-- C5: `GET /asset/{id}` with a syntactically invalid id returns status
400, and with a well-formed but non-existent (or expired) id returns
status 404; the two failure kinds are distinct responses. -/
theorem get_asset_error_kinds (st : ServerState) (id : String) :
    (isValidObjectId id = false →
      get_asset st id = .badRequest "Invalid id" ∧
        assetStatus (get_asset st id) = 400) ∧
    (isValidObjectId id = true → findDoc st.store id = none →
      get_asset st id = .notFound "Not found or expired" ∧
        assetStatus (get_asset st id) = 404) := by
  constructor
  · intro hbad
    have hcond : ¬ isValidObjectId id = true := by simp [hbad]
    unfold get_asset
    rw [if_neg hcond]
    exact ⟨rfl, rfl⟩
  · intro hok hnone
    unfold get_asset
    rw [if_pos hok, hnone]
    exact ⟨rfl, rfl⟩

/-- C6: two uploads of files with the same original filename whose
microsecond-precision call timestamps differ produce two distinct stored
file names of the form `{timestamp}_{originalfilename}`, hence two
distinct stored files with no overwrite: after both uploads each file
still serves its own bytes. -/
theorem uploads_same_name_no_overwrite (cwd f ct : String)
    (c1 c2 : Bytes) (ts1 ts2 : Timestamp) (id1 id2 rid1 rid2 url1 url2 : String)
    (st : ServerState) (sc : List String)
    (hv1 : validTs ts1) (hv2 : validTs ts2) (hne : ts1 ≠ ts2)
    (hnos : ∀ ch ∈ f.data, ch ≠ '/')
    (hsc : splitPath (STORAGE_DIR cwd) = sc)
    (hdirs : st.fs.dirs = prefixesOf sc)
    (hcl : ∀ x ∈ sc, x ≠ "." ∧ x ≠ "..")
    (h1 : (upload_model cwd st f ct c1 ts1 id1).2 = .ok rid1 url1)
    (h2 : (upload_model cwd (upload_model cwd st f ct c1 ts1 id1).1 f ct c2 ts2 id2).2 =
      .ok rid2 url2) :
    save_name ts1 f ≠ save_name ts2 f ∧
    serve_file cwd (upload_model cwd (upload_model cwd st f ct c1 ts1 id1).1 f ct c2 ts2 id2).1
        (save_name ts1 f) = .ok c1 ∧
    serve_file cwd (upload_model cwd (upload_model cwd st f ct c1 ts1 id1).1 f ct c2 ts2 id2).1
        (save_name ts2 f) = .ok c2 := by
  have hnames : save_name ts1 f ≠ save_name ts2 f := save_name_inj f hv1 hv2 hne
  obtain ⟨hall1, _, _, fs1, hw1, hst1⟩ := upload_ok_parts h1
  obtain ⟨hall2, _, _, fs2, hw2, hst2⟩ := upload_ok_parts h2
  obtain ⟨nm1, hsp1, hfs1⟩ := fsWrite_save_path hsc hdirs hcl hw1
  rw [splitComps_save_name ts1 hnos] at hsp1
  have hnm1 : nm1 = save_name ts1 f := by injection hsp1 with h'; exact h'.symm
  subst hnm1
  rw [hst1] at hw2
  have hdirs1 : (ServerState.mk fs1 ((id1, asset_doc cwd ts1 f ct c1) :: st.store)).fs.dirs =
      prefixesOf sc := by rw [show (ServerState.mk fs1 _).fs = fs1 from rfl, hfs1]; exact hdirs
  obtain ⟨nm2, hsp2, hfs2⟩ := fsWrite_save_path hsc hdirs1 hcl hw2
  rw [splitComps_save_name ts2 hnos] at hsp2
  have hnm2 : nm2 = save_name ts2 f := by injection hsp2 with h'; exact h'.symm
  subst hnm2
  have hkeys : sc ++ [save_name ts1 f] ≠ sc ++ [save_name ts2 f] := by
    intro he
    exact hnames (by simpa using (List.append_inj' he rfl).2)
  have hdot1 : save_name ts1 f ≠ "." ∧ save_name ts1 f ≠ ".." :=
    digit_headed_ne_dots (save_name_data ts1 f)
  have hdot2 : save_name ts2 f ≠ "." ∧ save_name ts2 f ≠ ".." :=
    digit_headed_ne_dots (save_name_data ts2 f)
  have hcomps1 : splitPath (save_path cwd ts1 f) = sc ++ [save_name ts1 f] := by
    rw [save_path_comps, hsc, splitComps_save_name ts1 hnos]
  have hcomps2 : splitPath (save_path cwd ts2 f) = sc ++ [save_name ts2 f] := by
    rw [save_path_comps, hsc, splitComps_save_name ts2 hnos]
  have hdirs2 : fs2.dirs = prefixesOf sc := by
    rw [hfs2]
    exact hdirs1
  refine ⟨hnames, ?_, ?_⟩ <;> rw [hst2, serve_save_name,
    show (ServerState.mk fs2 ((id2, asset_doc cwd ts2 f ct c2) :: _)).fs = fs2 from rfl]
  · rw [hcomps1, fsRead_root hdirs2 hcl hdot1, hfs2,
      show (FS.mk (ServerState.mk fs1 _).fs.dirs (insertFile (ServerState.mk fs1 _).fs.files
        (sc ++ [save_name ts2 f]) c2)).files = insertFile fs1.files
        (sc ++ [save_name ts2 f]) c2 from rfl,
      lookupFile_insertFile_ne _ _ _ _ hkeys, hfs1,
      show (FS.mk st.fs.dirs (insertFile st.fs.files (sc ++ [save_name ts1 f]) c1)).files =
        insertFile st.fs.files (sc ++ [save_name ts1 f]) c1 from rfl,
      lookupFile_insertFile_self]
  · rw [hcomps2, fsRead_root hdirs2 hcl hdot2, hfs2,
      show (FS.mk (ServerState.mk fs1 _).fs.dirs (insertFile (ServerState.mk fs1 _).fs.files
        (sc ++ [save_name ts2 f]) c2)).files = insertFile fs1.files
        (sc ++ [save_name ts2 f]) c2 from rfl,
      lookupFile_insertFile_self]

/-- C7: for every successful upload, the `size_bytes` field recorded in
the metadata document equals the number of bytes actually written to the
stored file (the file at the recorded `storage_path`). -/
theorem upload_size_bytes_matches_file (cwd : String) (st : ServerState)
    (filename ct : String) (content : Bytes) (now : Timestamp)
    (newId rid url : String)
    (h : (upload_model cwd st filename ct content now newId).2 = .ok rid url) :
    ∃ doc bs,
      findDoc (upload_model cwd st filename ct content now newId).1.store rid = some doc ∧
      doc.storage_path = some (save_path cwd now filename) ∧
      fsRead (upload_model cwd st filename ct content now newId).1.fs
        (splitPath (save_path cwd now filename)) = some bs ∧
      doc.size_bytes = some bs.length := by
  obtain ⟨hall, hrid, hurl, fs', hw, hst⟩ := upload_ok_parts h
  subst hrid
  refine ⟨asset_doc cwd now filename ct content, content, ?_, rfl, ?_, rfl⟩
  · rw [hst]
    unfold findDoc
    rw [if_pos rfl]
  · rw [hst]
    exact (fsRead_fsWrite_self hw).2

/-- C8: the client-supplied original filename is never trusted as a
storage path: for every successful upload, whatever the filename, every
file in the filesystem afterwards is either a pre-existing file or sits
directly inside the fixed storage root (the hypotheses say the storage
tree is the chain of directories leading to the flat storage root). -/
theorem upload_writes_inside_storage_root (cwd : String) (st : ServerState)
    (filename ct : String) (content : Bytes) (now : Timestamp)
    (newId rid url : String) (sc : List String)
    (hsc : splitPath (STORAGE_DIR cwd) = sc)
    (hdirs : st.fs.dirs = prefixesOf sc)
    (hcl : ∀ x ∈ sc, x ≠ "." ∧ x ≠ "..")
    (h : (upload_model cwd st filename ct content now newId).2 = .ok rid url) :
    ∀ q b, (q, b) ∈ (upload_model cwd st filename ct content now newId).1.fs.files →
      (q, b) ∈ st.fs.files ∨ ∃ nm, q = sc ++ [nm] := by
  obtain ⟨hall, hrid, hurl, fs', hw, hst⟩ := upload_ok_parts h
  obtain ⟨nm, hsp, hfs⟩ := fsWrite_save_path hsc hdirs hcl hw
  intro q b hq
  rw [hst, show (ServerState.mk fs' _).fs = fs' from rfl, hfs,
    show (FS.mk st.fs.dirs (insertFile st.fs.files (sc ++ [nm]) content)).files =
      insertFile st.fs.files (sc ++ [nm]) content from rfl] at hq
  rcases mem_insertFile hq with hold | ⟨hk, _⟩
  · exact Or.inl hold
  · exact Or.inr ⟨nm, hk⟩

/-- C9: `GET /test` returns status 200 for every possible state of the
database connection (no database failure causes a non-200 response), and
the `database` field of the response reports the working message exactly
when the database is actually reachable and answering queries. -/
theorem test_always_200_and_reports_reachability (db : DbState) (urlSet nameSet : Bool) :
    (test_endpoint db urlSet nameSet).1 = 200 ∧
    ((test_endpoint db urlSet nameSet).2.database = "✅ Connected & Working" ↔
      dbReachable db = true) := by
  refine ⟨rfl, ?_⟩
  cases db with
  | noDb =>
    simp only [test_endpoint, test_database, dbReachable]
    decide
  | conn res =>
    cases res with
    | ok cols =>
      simp only [test_endpoint, test_database, dbReachable]
    | error e =>
      simp only [test_endpoint, test_database, dbReachable]
      constructor
      · intro habs
        have hlen := congrArg String.length habs
        rw [String.length_append] at hlen
        rw [show ("⚠️  Connected but Error: ").length = 25 from rfl] at hlen
        rw [show ("✅ Connected & Working").length = 21 from rfl] at hlen
        omega
      · intro habs
        exact absurd habs (by decide)

/-- C10: if `GET /asset/{id}` finds a document for a well-formed id but
the document has no `url` field, the endpoint still returns status 200
with the input id string verbatim and a null `url`. -/
theorem get_asset_missing_url_field (st : ServerState) (id : String) (doc : AssetDoc)
    (hid : isValidObjectId id = true)
    (hfind : findDoc st.store id = some doc)
    (hurl : doc.url = none) :
    get_asset st id = .ok id none ∧ assetStatus (get_asset st id) = 200 := by
  unfold get_asset
  rw [if_pos hid, hfind]
  constructor
  · show AssetResult.ok id doc.url = AssetResult.ok id none
    rw [hurl]
  · rfl

end SymbolicReasoning

/-! Concrete states and inputs used by the witnesses. -/

/-- A concrete storage root: the working directory is `/app`. -/
def sc0 : List String := ["app", "uploads"]

/-- A concrete filesystem holding the directory chain to the storage
root and no files. -/
def fs0 : FS := ⟨prefixesOf sc0, []⟩

/-- A concrete server state with an empty metadata store. -/
def st0 : ServerState := ⟨fs0, []⟩

/-- A server state whose filesystem has no directories at all, so that
any disk write fails. -/
def stNoDirs : ServerState := ⟨⟨[], []⟩, []⟩

/-- A concrete upload timestamp. -/
def stampA : Timestamp := ⟨2025, 1, 2, 3, 4, 5, 6⟩

/-- A second concrete timestamp, one microsecond later. -/
def stampB : Timestamp := ⟨2025, 1, 2, 3, 4, 5, 7⟩

/-- A concrete 24-hex-character ObjectId string. -/
def oid0 : String := "507f1f77bcf86cd799439011"

/-- A concrete metadata document with no `url` field. -/
def docNoUrl : AssetDoc :=
  { filename := some "m.glb", content_type := some "ct", size_bytes := some 3,
    url := none, storage_path := some "/app/uploads/x" }

/-- A server state whose store holds `docNoUrl` under `oid0`. -/
def stDoc : ServerState := ⟨fs0, [(oid0, docNoUrl)]⟩

/-- Witness for C1 at a concrete upload. -/
theorem upload_id_resolves_to_same_url_witness :
    get_asset (upload_model "/app" st0 "m.glb" "ct" [1, 2, 3] stampA oid0).1 oid0 =
      .ok oid0 (some "/files/20250102030405000006_m.glb") ∧
    assetStatus (get_asset (upload_model "/app" st0 "m.glb" "ct" [1, 2, 3] stampA oid0).1
      oid0) = 200 :=
  upload_id_resolves_to_same_url "/app" st0 "m.glb" "ct" [1, 2, 3] stampA oid0 oid0
    "/files/20250102030405000006_m.glb" (by decide) (by decide)

/-- Witness for C2 at a concrete upload. -/
theorem upload_bytes_round_trip_witness :
    "/files/20250102030405000006_m.glb" = "/files/" ++ save_name stampA "m.glb" ∧
    serve_file "/app" (upload_model "/app" st0 "m.glb" "ct" [1, 2, 3] stampA oid0).1
      (save_name stampA "m.glb") = .ok [1, 2, 3] ∧
    fileStatus (serve_file "/app" (upload_model "/app" st0 "m.glb" "ct" [1, 2, 3] stampA oid0).1
      (save_name stampA "m.glb")) = 200 :=
  upload_bytes_round_trip "/app" st0 "m.glb" "ct" [1, 2, 3] stampA oid0 oid0
    "/files/20250102030405000006_m.glb" (by decide)

/-- Witness for C3 at a concrete disallowed filename. -/
theorem upload_rejects_bad_extension_witness :
    upload_model "/app" st0 "model.txt" "ct" [1, 2, 3] stampA oid0 =
      (st0, .badRequest "Only .glb, .gltf, .usdz files are supported") ∧
    uploadStatus (upload_model "/app" st0 "model.txt" "ct" [1, 2, 3] stampA oid0).2 = 400 :=
  upload_rejects_bad_extension "/app" st0 "model.txt" "ct" [1, 2, 3] stampA oid0 (by decide)

/-- Witness for C4 at a concrete state where the disk write fails. -/
theorem upload_no_record_on_write_failure_witness :
    upload_model "/app" stNoDirs "m.glb" "ct" [1, 2, 3] stampA oid0 =
      (stNoDirs, .serverError) ∧
    (upload_model "/app" stNoDirs "m.glb" "ct" [1, 2, 3] stampA oid0).1.store =
      stNoDirs.store ∧
    uploadStatus (upload_model "/app" stNoDirs "m.glb" "ct" [1, 2, 3] stampA oid0).2 = 500 :=
  upload_no_record_on_write_failure "/app" stNoDirs "m.glb" "ct" [1, 2, 3] stampA oid0
    (by decide) (by decide)

/-- Witness for C5 at a malformed and at a well-formed-but-unknown id. -/
theorem get_asset_error_kinds_witness :
    (get_asset st0 "nope" = .badRequest "Invalid id" ∧
      assetStatus (get_asset st0 "nope") = 400) ∧
    (get_asset st0 oid0 = .notFound "Not found or expired" ∧
      assetStatus (get_asset st0 oid0) = 404) :=
  ⟨(get_asset_error_kinds st0 "nope").1 (by decide),
    (get_asset_error_kinds st0 oid0).2 (by decide) (by decide)⟩

/-- Witness for C6 at two concrete uploads one microsecond apart. -/
theorem uploads_same_name_no_overwrite_witness :
    save_name stampA "m.glb" ≠ save_name stampB "m.glb" ∧
    serve_file "/app"
      (upload_model "/app" (upload_model "/app" st0 "m.glb" "ct" [1] stampA "idA").1
        "m.glb" "ct" [2] stampB "idB").1 (save_name stampA "m.glb") = .ok [1] ∧
    serve_file "/app"
      (upload_model "/app" (upload_model "/app" st0 "m.glb" "ct" [1] stampA "idA").1
        "m.glb" "ct" [2] stampB "idB").1 (save_name stampB "m.glb") = .ok [2] :=
  uploads_same_name_no_overwrite "/app" "m.glb" "ct" [1] [2] stampA stampB "idA" "idB"
    "idA" "idB" "/files/20250102030405000006_m.glb" "/files/20250102030405000007_m.glb"
    st0 sc0 (by decide) (by decide) (by decide) (by decide) (by decide) (by decide)
    (by decide) (by decide) (by decide)

/-- Witness for C7 at a concrete upload. -/
theorem upload_size_bytes_matches_file_witness :
    ∃ doc bs,
      findDoc (upload_model "/app" st0 "m.glb" "ct" [1, 2, 3] stampA oid0).1.store oid0 =
        some doc ∧
      doc.storage_path = some (save_path "/app" stampA "m.glb") ∧
      fsRead (upload_model "/app" st0 "m.glb" "ct" [1, 2, 3] stampA oid0).1.fs
        (splitPath (save_path "/app" stampA "m.glb")) = some bs ∧
      doc.size_bytes = some bs.length :=
  upload_size_bytes_matches_file "/app" st0 "m.glb" "ct" [1, 2, 3] stampA oid0 oid0
    "/files/20250102030405000006_m.glb" (by decide)

/-- Witness for C8 at a concrete upload, applied to the file that was
just written. -/
theorem upload_writes_inside_storage_root_witness :
    (["app", "uploads", "20250102030405000006_m.glb"], ([1, 2, 3] : Bytes)) ∈
        st0.fs.files ∨
      ∃ nm, ["app", "uploads", "20250102030405000006_m.glb"] = sc0 ++ [nm] :=
  upload_writes_inside_storage_root "/app" st0 "m.glb" "ct" [1, 2, 3] stampA oid0 oid0
    "/files/20250102030405000006_m.glb" sc0 (by decide) (by decide) (by decide) (by decide)
    ["app", "uploads", "20250102030405000006_m.glb"] [1, 2, 3] (by decide)

/-- Witness for C10 at a concrete store holding a document without a
`url` field. -/
theorem get_asset_missing_url_field_witness :
    get_asset stDoc oid0 = .ok oid0 none ∧ assetStatus (get_asset stDoc oid0) = 200 :=
  get_asset_missing_url_field stDoc oid0 docNoUrl (by decide) (by decide) (by decide)

end HoloShare
